import Mathlib

/-!
Verification of the change-detection pipeline of `monitor.py`
(web-monitor-buoy).

The source is a single linear script: load the persisted name → digest
mapping, fetch each configured target sequentially, hash the body,
classify the outcome (Initial / Changed / Unchanged / Error), collect the
non-Unchanged outcomes as change events, save the mapping of all
successfully hashed targets, and serialize the events into an XML report.

The embedding below is shallow and executable:
  - the persisted file is a `FileState` (missing / present but
    unparseable / parsed mapping), with `json.load` of a well-formed file
    giving back the stored object;
  - a Python dict is a `List (String × String)` with first-match lookup
    and insert-or-overwrite update, matching dict insertion-order
    semantics;
  - the network and the digest are inputs: `fetch : String → Except
    String String` gives each URL either an error message (the caught
    `RequestException`) or the body bytes, and `md5hex : String → String`
    is the digest of a body (`hashlib.md5(...).hexdigest()`); the claims
    depend only on digest equality, never on MD5 internals;
  - `datetime.now().isoformat()` is an input string `now`.
-/

namespace WebMonitor

/-- One monitored (name, URL) pair of `MONITORED_URLS`. -/
structure Target where
  name : String
  url : String
deriving DecidableEq, Repr

/-- A JSON-style object mapping target name to digest, in insertion
order, as `json.load` / `json.dump` round it. -/
abbrev HashObj := List (String × String)

/-- Python dict lookup `d[k]` (and the membership test `k in d`):
the value bound to the key, if any. -/
def objGet (d : HashObj) (k : String) : Option String :=
  match d with
  | [] => none
  | p :: ps => if p.1 = k then some p.2 else objGet ps k

/-- Python dict update `d[k] = v`: overwrite in place if the key is
present (keeping its position), otherwise append at the end. -/
def dictInsert (d : HashObj) (k v : String) : HashObj :=
  if (objGet d k).isSome then
    d.map (fun p => if p.1 = k then (k, v) else p)
  else
    d ++ [(k, v)]

/-- The persisted hash-storage file, as the loader distinguishes it:
absent, present but not valid JSON, or a parsed top-level object. -/
inductive FileState where
  | missing
  | corrupt
  | stored (m : HashObj)
deriving DecidableEq, Repr

/-- Lines 20–26 of `monitor.py`: start from `\x7b\x7d`; if the file exists,
try `json.load`, and on `JSONDecodeError` print a warning and keep the
empty mapping.  Returns the mapping and whether the warning was printed. -/
def loadHashes : FileState → HashObj × Bool
  | FileState.missing => ([], false)
  | FileState.corrupt => ([], true)
  | FileState.stored m => (m, false)

/-- Line 78–79 of `monitor.py`: `json.dump(current_hashes, f)` overwrites
the file with the full current mapping. -/
def saveHashes (m : HashObj) : FileState :=
  FileState.stored m

/-- One entry of `changes_detected`: the five fields serialized into a
`ChangeItem` of the report. -/
structure ChangeEvent where
  name : String
  url : String
  timestamp : String
  status : String
  hash_change : String
deriving DecidableEq, Repr

/-- The body of the `for name, url in MONITORED_URLS.items()` loop
(lines 31–75), acting on the accumulated `(current_hashes,
changes_detected)` pair.  On success the digest is recorded in
`current_hashes` before classification; the comparison mirrors
`if name in last_hashes and last_hashes[name] != content_hash` /
`elif name not in last_hashes` / `else`.  On a `RequestException` only an
Error event is appended. -/
def loopStep (md5hex : String → String) (fetch : String → Except String String)
    (last_hashes : HashObj) (now : String)
    (acc : HashObj × List ChangeEvent) (t : Target) :
    HashObj × List ChangeEvent :=
  match fetch t.url with
  | Except.ok body =>
      let content_hash := md5hex body
      let current := dictInsert acc.1 t.name content_hash
      match objGet last_hashes t.name with
      | some old =>
          if old ≠ content_hash then
            (current, acc.2 ++ [⟨t.name, t.url, now, "Content Changed",
              "Old: " ++ old.take 8 ++ "... -> New: " ++ content_hash.take 8 ++ "..."⟩])
          else
            (current, acc.2)
      | none =>
          (current, acc.2 ++ [⟨t.name, t.url, now, "Initial Check (No history recorded)",
            "Initial Hash: " ++ content_hash.take 8 ++ "..."⟩])
  | Except.error e =>
      (acc.1, acc.2 ++ [⟨t.name, t.url, now, "Error: " ++ e, "N/A"⟩])

/-- `check_for_changes` (lines 17–81): load the last hashes, run the loop
over the configured targets in declared order, save `current_hashes`, and
return `changes_detected` together with the new file state. -/
def check_for_changes (md5hex : String → String)
    (fetch : String → Except String String) (now : String)
    (file : FileState) (targets : List Target) :
    List ChangeEvent × FileState :=
  let last_hashes := (loadHashes file).1
  let result := targets.foldl (loopStep md5hex fetch last_hashes now) ([], [])
  (result.2, saveHashes result.1)

/-- An XML element as `xml.etree.ElementTree` builds it: a tag, optional
text, and a list of child elements. -/
inductive XML where
  | elem (tag : String) (text : Option String) (children : List XML)

/-- The five sub-elements of one `ChangeItem` (lines 96–103), in the
fixed order Name, URL, Timestamp, Status, HashDetails. -/
def changeItem (c : ChangeEvent) : XML :=
  XML.elem "ChangeItem" none [
    XML.elem "Name" (some c.name) [],
    XML.elem "URL" (some c.url) [],
    XML.elem "Timestamp" (some c.timestamp) [],
    XML.elem "Status" (some c.status) [],
    XML.elem "HashDetails" (some c.hash_change) []]

/-- `generate_xml_report` (lines 83–109): the `MonitoringReport` root
holds a Status element (count summary when `changes` is truthy, the
no-changes line otherwise), a TimestampGenerated element, and one
`ChangeItem` per event in order. -/
def generate_xml_report (changes : List ChangeEvent) (now : String) : XML :=
  XML.elem "MonitoringReport" none (
    XML.elem "Status"
      (some (if changes.isEmpty then "No changes detected since the last run."
        else toString changes.length ++ " Change(s) or Initial Check(s) Detected.")) [] ::
    XML.elem "TimestampGenerated" (some now) [] ::
    changes.map changeItem)

/-!  Per-target projections of the loop body, used to state that the run
processes each target independently of the others. -/

/-- The event (if any) that the loop body appends to `changes_detected`
for one target, as a function of the fetch outcome and `last_hashes`. -/
def eventOf (md5hex : String → String) (fetch : String → Except String String)
    (last_hashes : HashObj) (now : String) (t : Target) : Option ChangeEvent :=
  match fetch t.url with
  | Except.ok body =>
      let content_hash := md5hex body
      match objGet last_hashes t.name with
      | some old =>
          if old ≠ content_hash then
            some ⟨t.name, t.url, now, "Content Changed",
              "Old: " ++ old.take 8 ++ "... -> New: " ++ content_hash.take 8 ++ "..."⟩
          else
            none
      | none =>
          some ⟨t.name, t.url, now, "Initial Check (No history recorded)",
            "Initial Hash: " ++ content_hash.take 8 ++ "..."⟩
  | Except.error e =>
      some ⟨t.name, t.url, now, "Error: " ++ e, "N/A"⟩

/-- The entry (if any) that the loop body records in `current_hashes`
for one target: the digest of a successfully fetched body. -/
def hashOf (md5hex : String → String) (fetch : String → Except String String)
    (t : Target) : Option (String × String) :=
  match fetch t.url with
  | Except.ok body => some (t.name, md5hex body)
  | Except.error _ => none

/-!  A concrete scenario used to exercise the theorems on explicit
inputs: a toy digest function and a small network with one failing URL. -/

/-- A toy deterministic digest for concrete runs. -/
def demoHash (body : String) : String := "digest-" ++ body

/-- A concrete network: three URLs serve fixed bodies, one URL fails
with the message of its caught request exception. -/
def demoFetch (url : String) : Except String String :=
  if url = "http://a" then Except.ok "hello"
  else if url = "http://b" then Except.error "connection timed out"
  else if url = "http://c" then Except.ok "world"
  else if url = "http://d" then Except.ok "data"
  else Except.error "unknown host"

/-- Four concrete targets, in declared order. -/
def demoTargets : List Target :=
  [⟨"A", "http://a"⟩, ⟨"B", "http://b"⟩, ⟨"C", "http://c"⟩, ⟨"D", "http://d"⟩]

/-- A prior state: A already holds the digest its body still hashes to,
B holds a digest from an earlier successful run, C holds a stale digest,
D is absent. -/
def demoPrior : FileState :=
  FileState.stored [("A", "digest-hello"), ("B", "digest-bee"), ("C", "oldC")]

/-!  ## Lemmas about dict lookup and insert -/

@[simp]
theorem objGet_nil (k : String) : objGet [] k = none := rfl

@[simp]
theorem objGet_cons (p : String × String) (ps : HashObj) (k : String) :
    objGet (p :: ps) k = if p.1 = k then some p.2 else objGet ps k := rfl

theorem objGet_append (d e : HashObj) (k : String) :
    objGet (d ++ e) k =
      match objGet d k with
      | some v => some v
      | none => objGet e k := by
  induction d with
  | nil => simp
  | cons p ps ih =>
      by_cases h : p.1 = k <;> simp [h, ih]

theorem objGet_mem (l : HashObj) (k v : String) :
    objGet l k = some v → (k, v) ∈ l := by
  induction l with
  | nil => intro h; cases h
  | cons p ps ih =>
      intro h
      by_cases hp : p.1 = k
      · rw [objGet_cons, if_pos hp] at h
        injection h with h2
        have hpe : (k, v) = p := by
          rw [← hp, ← h2]
        rw [hpe]
        exact List.mem_cons_self p ps
      · rw [objGet_cons, if_neg hp] at h
        exact List.mem_cons_of_mem p (ih h)

theorem dictInsert_of_objGet_none (d : HashObj) (k v : String)
    (h : objGet d k = none) : dictInsert d k v = d ++ [(k, v)] := by
  unfold dictInsert
  simp [h]

/-- Folding Python dict updates over a list of bindings with pairwise
distinct keys, all fresh for the starting dict, appends the bindings. -/
theorem foldl_dictInsert (pairs : List (String × String)) :
    ∀ d : HashObj, (pairs.map Prod.fst).Nodup →
      (∀ k, k ∈ pairs.map Prod.fst → objGet d k = none) →
      List.foldl (fun d p => dictInsert d p.1 p.2) d pairs = d ++ pairs := by
  induction pairs with
  | nil => intro d _ _; simp
  | cons p ps ih =>
      intro d hnd hfresh
      have hp : objGet d p.1 = none := hfresh p.1 (by simp)
      have hstep : dictInsert d p.1 p.2 = d ++ [p] := by
        rw [dictInsert_of_objGet_none d p.1 p.2 hp]
      have hnd' : (ps.map Prod.fst).Nodup := (List.nodup_cons.mp (by simpa using hnd)).2
      have hhead : p.1 ∉ ps.map Prod.fst := (List.nodup_cons.mp (by simpa using hnd)).1
      have hfresh' : ∀ k, k ∈ ps.map Prod.fst → objGet (d ++ [p]) k = none := by
        intro k hk
        rw [objGet_append]
        have h1 : objGet d k = none := hfresh k (by simp [hk])
        have h2 : p.1 ≠ k := fun he => hhead (he ▸ hk)
        simp [h1, h2]
      calc List.foldl (fun d p => dictInsert d p.1 p.2) d (p :: ps)
          = List.foldl (fun d p => dictInsert d p.1 p.2) (d ++ [p]) ps := by
            simp [hstep]
        _ = (d ++ [p]) ++ ps := ih (d ++ [p]) hnd' hfresh'
        _ = d ++ p :: ps := by simp

/-!  ## Per-target decomposition of the run loop -/

/-- One loop iteration, restated through the per-target projections:
the hash map gains the target's digest entry (if the fetch succeeded)
and the change list gains the target's event (if one is emitted). -/
theorem loopStep_eq (md5hex : String → String) (fetch : String → Except String String)
    (last_hashes : HashObj) (now : String) (acc : HashObj × List ChangeEvent) (t : Target) :
    loopStep md5hex fetch last_hashes now acc t =
      ((match hashOf md5hex fetch t with
        | some p => dictInsert acc.1 p.1 p.2
        | none => acc.1),
       acc.2 ++ (eventOf md5hex fetch last_hashes now t).toList) := by
  unfold loopStep hashOf eventOf
  cases hF : fetch t.url with
  | ok body =>
      cases hL : objGet last_hashes t.name with
      | some old => by_cases hne : old ≠ md5hex body <;> simp [hne]
      | none => simp
  | error e => simp

/-- The change list accumulated by the loop is the per-target events in
declared order. -/
theorem run_changes (md5hex : String → String) (fetch : String → Except String String)
    (last_hashes : HashObj) (now : String) :
    ∀ (ts : List Target) (h : HashObj) (c : List ChangeEvent),
      (List.foldl (loopStep md5hex fetch last_hashes now) (h, c) ts).2 =
        c ++ ts.filterMap (eventOf md5hex fetch last_hashes now) := by
  intro ts
  induction ts with
  | nil => intro h c; simp
  | cons t ts ih =>
      intro h c
      rw [List.foldl_cons, loopStep_eq, ih]
      cases hev : eventOf md5hex fetch last_hashes now t with
      | none => simp [List.filterMap_cons, hev]
      | some ev => simp [List.filterMap_cons, hev]

/-- The hash map accumulated by the loop is the dict built from the
per-target digest entries, in declared order. -/
theorem run_hashes (md5hex : String → String) (fetch : String → Except String String)
    (last_hashes : HashObj) (now : String) :
    ∀ (ts : List Target) (h : HashObj) (c : List ChangeEvent),
      (List.foldl (loopStep md5hex fetch last_hashes now) (h, c) ts).1 =
        List.foldl (fun d p => dictInsert d p.1 p.2) h
          (ts.filterMap (hashOf md5hex fetch)) := by
  intro ts
  induction ts with
  | nil => intro h c; simp
  | cons t ts ih =>
      intro h c
      rw [List.foldl_cons, loopStep_eq, ih]
      cases hh : hashOf md5hex fetch t with
      | none => simp [List.filterMap_cons, hh]
      | some p => simp [List.filterMap_cons, hh]

/-!  ## Characterizing one whole run -/

/-- The events returned by `check_for_changes`: the per-target events of
the configured targets, in declared order. -/
theorem check_changes_eq (md5hex : String → String)
    (fetch : String → Except String String) (now : String)
    (file : FileState) (ts : List Target) :
    (check_for_changes md5hex fetch now file ts).1 =
      ts.filterMap (eventOf md5hex fetch (loadHashes file).1 now) := by
  show (ts.foldl (loopStep md5hex fetch (loadHashes file).1 now) ([], [])).2 = _
  rw [run_changes]
  simp

/-- The file state written by `check_for_changes`: the dict built from
the per-target digest entries. -/
theorem check_saved (md5hex : String → String)
    (fetch : String → Except String String) (now : String)
    (file : FileState) (ts : List Target) :
    (check_for_changes md5hex fetch now file ts).2 =
      FileState.stored (List.foldl (fun d p => dictInsert d p.1 p.2) []
        (ts.filterMap (hashOf md5hex fetch))) := by
  show saveHashes (ts.foldl (loopStep md5hex fetch (loadHashes file).1 now) ([], [])).1 = _
  rw [run_hashes]
  rfl

/-!  ## Lemmas about the per-target projections -/

theorem hashOf_ok (md5hex : String → String) (fetch : String → Except String String)
    (t : Target) (body : String) (hf : fetch t.url = Except.ok body) :
    hashOf md5hex fetch t = some (t.name, md5hex body) := by
  simp [hashOf, hf]

theorem hashOf_error (md5hex : String → String) (fetch : String → Except String String)
    (t : Target) (e : String) (hf : fetch t.url = Except.error e) :
    hashOf md5hex fetch t = none := by
  simp [hashOf, hf]

theorem hashOf_name (md5hex : String → String) (fetch : String → Except String String)
    (t : Target) (p : String × String) (h : hashOf md5hex fetch t = some p) :
    p.1 = t.name := by
  cases hF : fetch t.url with
  | ok body =>
      rw [hashOf_ok md5hex fetch t body hF] at h
      injection h with h2
      subst h2
      rfl
  | error e =>
      rw [hashOf_error md5hex fetch t e hF] at h
      exact absurd h (by simp)

/-- The keys recorded in `current_hashes` are drawn from the target
names, in order. -/
theorem hashOf_keys_sublist (md5hex : String → String)
    (fetch : String → Except String String) :
    ∀ ts : List Target,
      ((ts.filterMap (hashOf md5hex fetch)).map Prod.fst).Sublist
        (ts.map Target.name) := by
  intro ts
  induction ts with
  | nil => simp
  | cons t ts ih =>
      cases hh : hashOf md5hex fetch t with
      | none =>
          simp only [List.filterMap_cons, hh, List.map_cons]
          exact ih.cons t.name
      | some p =>
          have hp := hashOf_name md5hex fetch t p hh
          simp only [List.filterMap_cons, hh, List.map_cons, hp]
          exact ih.cons₂ t.name

theorem objGet_hashes_of_not_mem (md5hex : String → String)
    (fetch : String → Except String String) :
    ∀ (ts : List Target) (n : String), n ∉ ts.map Target.name →
      objGet (ts.filterMap (hashOf md5hex fetch)) n = none := by
  intro ts
  induction ts with
  | nil => intro n _; simp
  | cons t ts ih =>
      intro n hn
      have hn1 : t.name ≠ n := by
        intro he; exact hn (by simp [he])
      have hn2 : n ∉ ts.map Target.name := by
        intro he; exact hn (by simp [he])
      cases hh : hashOf md5hex fetch t with
      | none => simpa [List.filterMap_cons, hh] using ih n hn2
      | some p =>
          have hp := hashOf_name md5hex fetch t p hh
          simp only [List.filterMap_cons, hh, objGet_cons, hp]
          simp [hn1, ih n hn2]

/-- With pairwise distinct target names, the digest dict of a run binds
each target's name to exactly its own digest entry. -/
theorem objGet_hashes (md5hex : String → String)
    (fetch : String → Except String String) :
    ∀ (ts : List Target) (t : Target), (ts.map Target.name).Nodup → t ∈ ts →
      objGet (ts.filterMap (hashOf md5hex fetch)) t.name =
        Option.map Prod.snd (hashOf md5hex fetch t) := by
  intro ts
  induction ts with
  | nil => intro t _ hmem; exact absurd hmem (by simp)
  | cons t' ts ih =>
      intro t hnd hmem
      have hnd1 : t'.name ∉ ts.map Target.name :=
        (List.nodup_cons.mp (by simpa using hnd)).1
      have hnd2 : (ts.map Target.name).Nodup :=
        (List.nodup_cons.mp (by simpa using hnd)).2
      rcases List.mem_cons.mp hmem with heq | hmem'
      · subst heq
        cases hh : hashOf md5hex fetch t with
        | none =>
            simp only [List.filterMap_cons, hh, Option.map_none]
            exact objGet_hashes_of_not_mem md5hex fetch ts t.name hnd1
        | some p =>
            have hp := hashOf_name md5hex fetch t p hh
            simp [List.filterMap_cons, hh, hp]
      · have hne : t.name ≠ t'.name := by
          intro he
          exact hnd1 (he ▸ List.mem_map_of_mem Target.name hmem')
        cases hh : hashOf md5hex fetch t' with
        | none =>
            simpa [List.filterMap_cons, hh] using ih t hnd2 hmem'
        | some p =>
            have hp := hashOf_name md5hex fetch t' p hh
            have hne2 : t'.name ≠ t.name := fun he => hne he.symm
            simp only [List.filterMap_cons, hh, objGet_cons, hp, if_neg hne2]
            exact ih t hnd2 hmem'

theorem eventOf_error (md5hex : String → String) (fetch : String → Except String String)
    (last_hashes : HashObj) (now : String) (t : Target) (e : String)
    (hf : fetch t.url = Except.error e) :
    eventOf md5hex fetch last_hashes now t =
      some ⟨t.name, t.url, now, "Error: " ++ e, "N/A"⟩ := by
  simp [eventOf, hf]

theorem eventOf_changed (md5hex : String → String) (fetch : String → Except String String)
    (last_hashes : HashObj) (now : String) (t : Target) (body old : String)
    (hf : fetch t.url = Except.ok body)
    (hl : objGet last_hashes t.name = some old) (hne : old ≠ md5hex body) :
    eventOf md5hex fetch last_hashes now t =
      some ⟨t.name, t.url, now, "Content Changed",
        "Old: " ++ old.take 8 ++ "... -> New: " ++ (md5hex body).take 8 ++ "..."⟩ := by
  simp [eventOf, hf, hl, hne]

theorem eventOf_initial (md5hex : String → String) (fetch : String → Except String String)
    (last_hashes : HashObj) (now : String) (t : Target) (body : String)
    (hf : fetch t.url = Except.ok body)
    (hl : objGet last_hashes t.name = none) :
    eventOf md5hex fetch last_hashes now t =
      some ⟨t.name, t.url, now, "Initial Check (No history recorded)",
        "Initial Hash: " ++ (md5hex body).take 8 ++ "..."⟩ := by
  simp [eventOf, hf, hl]

theorem eventOf_unchanged (md5hex : String → String) (fetch : String → Except String String)
    (last_hashes : HashObj) (now : String) (t : Target) (body : String)
    (hf : fetch t.url = Except.ok body)
    (hl : objGet last_hashes t.name = some (md5hex body)) :
    eventOf md5hex fetch last_hashes now t = none := by
  simp [eventOf, hf, hl]

/-- A target produces no event exactly when it is classified Unchanged:
the fetch succeeded and the stored digest equals the new digest. -/
theorem eventOf_none_iff (md5hex : String → String) (fetch : String → Except String String)
    (last_hashes : HashObj) (now : String) (t : Target) :
    eventOf md5hex fetch last_hashes now t = none ↔
      ∃ body, fetch t.url = Except.ok body ∧
        objGet last_hashes t.name = some (md5hex body) := by
  constructor
  · intro h
    cases hF : fetch t.url with
    | ok body =>
        refine ⟨body, rfl, ?_⟩
        cases hL : objGet last_hashes t.name with
        | none => rw [eventOf_initial md5hex fetch last_hashes now t body hF hL] at h; cases h
        | some old =>
            by_cases hne : old = md5hex body
            · rw [hne]
            · rw [eventOf_changed md5hex fetch last_hashes now t body old hF hL hne] at h
              cases h
    | error e =>
        rw [eventOf_error md5hex fetch last_hashes now t e hF] at h
        cases h
  · rintro ⟨body, hf, hl⟩
    exact eventOf_unchanged md5hex fetch last_hashes now t body hf hl

theorem eventOf_name (md5hex : String → String) (fetch : String → Except String String)
    (last_hashes : HashObj) (now : String) (t : Target) (ev : ChangeEvent)
    (h : eventOf md5hex fetch last_hashes now t = some ev) : ev.name = t.name := by
  cases hF : fetch t.url with
  | ok body =>
      cases hL : objGet last_hashes t.name with
      | none =>
          rw [eventOf_initial md5hex fetch last_hashes now t body hF hL] at h
          injection h with h2
          subst h2
          rfl
      | some old =>
          by_cases hne : old = md5hex body
          · have hL2 : objGet last_hashes t.name = some (md5hex body) := by
              rw [hL, hne]
            rw [eventOf_unchanged md5hex fetch last_hashes now t body hF hL2] at h
            cases h
          · rw [eventOf_changed md5hex fetch last_hashes now t body old hF hL hne] at h
            injection h with h2
            subst h2
            rfl
  | error e =>
      rw [eventOf_error md5hex fetch last_hashes now t e hF] at h
      injection h with h2
      subst h2
      rfl

/-- With pairwise distinct target names, loading the file a run saved
gives exactly the per-target digest entries of that run. -/
theorem check_loaded (md5hex : String → String)
    (fetch : String → Except String String) (now : String)
    (file : FileState) (ts : List Target)
    (hnd : (ts.map Target.name).Nodup) :
    (loadHashes (check_for_changes md5hex fetch now file ts).2).1 =
      ts.filterMap (hashOf md5hex fetch) := by
  rw [check_saved]
  have hkeys : ((ts.filterMap (hashOf md5hex fetch)).map Prod.fst).Nodup :=
    List.Nodup.sublist (hashOf_keys_sublist md5hex fetch ts) hnd
  show List.foldl (fun d p => dictInsert d p.1 p.2) []
      (ts.filterMap (hashOf md5hex fetch)) = _
  rw [foldl_dictInsert (ts.filterMap (hashOf md5hex fetch)) [] hkeys
    (fun k _ => rfl)]
  simp

/-- With pairwise distinct target names, a target that is classified
Unchanged has no event under its name anywhere in the run's report. -/
theorem no_event_of_name (md5hex : String → String)
    (fetch : String → Except String String) (last_hashes : HashObj) (now : String)
    (ts : List Target) (hnd : (ts.map Target.name).Nodup)
    (t : Target) (hmem : t ∈ ts)
    (hnone : eventOf md5hex fetch last_hashes now t = none) :
    ∀ ev ∈ ts.filterMap (eventOf md5hex fetch last_hashes now), ev.name ≠ t.name := by
  intro ev hev he
  rcases List.mem_filterMap.mp hev with ⟨t', hmem', ht'⟩
  have hname : t'.name = t.name := by
    rw [← eventOf_name md5hex fetch last_hashes now t' ev ht', he]
  have heq : t' = t := List.inj_on_of_nodup_map hnd hmem' hmem hname
  rw [heq, hnone] at ht'
  cases ht'

/-- An Error status string never coincides with the Changed status. -/
theorem error_status_ne_changed (e : String) :
    "Error: " ++ e ≠ "Content Changed" := by
  intro h
  have h2 : ("Error: " ++ e).data = "Content Changed".data := by rw [h]
  rw [String.data_append] at h2
  have h3 := congrArg List.head? h2
  simp at h3

/-- An Error status string never coincides with the Initial status. -/
theorem error_status_ne_initial (e : String) :
    "Error: " ++ e ≠ "Initial Check (No history recorded)" := by
  intro h
  have h2 : ("Error: " ++ e).data = "Initial Check (No history recorded)".data := by
    rw [h]
  rw [String.data_append] at h2
  have h3 := congrArg List.head? h2
  simp at h3

/-!  ## The claims -/

/-- Claim C1, as stated, is false on the code: the run saves only
`current_hashes`, which holds the digests of this run's successful
fetches, so a failing target's prior digest is deleted from the store
rather than left unchanged.  Concretely: before the run target B's entry
is the digest of an earlier successful run, B's fetch fails, and after
the run B has no entry at all. -/
theorem claim_C1_counterexample :
    demoFetch "http://b" = Except.error "connection timed out" ∧
    objGet (loadHashes demoPrior).1 "B" = some "digest-bee" ∧
    objGet (loadHashes
      (check_for_changes demoHash demoFetch "T" demoPrior demoTargets).2).1 "B" = none :=
  ⟨rfl, by decide, by decide⟩

/-- Claim C1 (amended): for every target whose fetch fails during a run,
no digest for that target is written to the persisted store by that run —
the saved mapping has no entry under the target's name, so a prior digest
is dropped rather than overwritten with a fresh value — and an Error
event for the target appears in the report. -/
theorem claim_C1_amended (md5hex : String → String)
    (fetch : String → Except String String) (now : String)
    (file : FileState) (targets : List Target)
    (hnd : (targets.map Target.name).Nodup)
    (t : Target) (ht : t ∈ targets) (e : String)
    (hf : fetch t.url = Except.error e) :
    objGet (loadHashes
      (check_for_changes md5hex fetch now file targets).2).1 t.name = none ∧
    (⟨t.name, t.url, now, "Error: " ++ e, "N/A"⟩ : ChangeEvent) ∈
      (check_for_changes md5hex fetch now file targets).1 := by
  constructor
  · rw [check_loaded md5hex fetch now file targets hnd,
      objGet_hashes md5hex fetch targets t hnd ht,
      hashOf_error md5hex fetch t e hf]
    rfl
  · rw [check_changes_eq]
    exact List.mem_filterMap.mpr
      ⟨t, ht, eventOf_error md5hex fetch (loadHashes file).1 now t e hf⟩

/-- Witness for the amended C1: target B of the demo run. -/
theorem claim_C1_amended_witness :
    objGet (loadHashes
      (check_for_changes demoHash demoFetch "T" demoPrior demoTargets).2).1 "B" = none ∧
    (⟨"B", "http://b", "T", "Error: " ++ "connection timed out", "N/A"⟩ : ChangeEvent) ∈
      (check_for_changes demoHash demoFetch "T" demoPrior demoTargets).1 :=
  claim_C1_amended demoHash demoFetch "T" demoPrior demoTargets (by decide)
    ⟨"B", "http://b"⟩ (by decide) "connection timed out" rfl

/-- Claim C2: round-trip of the state store.  The mapping saved at the
end of a run, loaded again, is exactly the per-target digest list of the
targets fetched successfully in that run, and it binds a name to a
digest exactly when some configured target of that name was fetched
successfully and its body hashed to that digest. -/
theorem claim_C2_roundtrip (md5hex : String → String)
    (fetch : String → Except String String) (now : String)
    (file : FileState) (targets : List Target)
    (hnd : (targets.map Target.name).Nodup) :
    (loadHashes (check_for_changes md5hex fetch now file targets).2).1 =
      targets.filterMap (hashOf md5hex fetch) ∧
    ∀ n d, (objGet (loadHashes
        (check_for_changes md5hex fetch now file targets).2).1 n = some d ↔
      ∃ t, t ∈ targets ∧ t.name = n ∧
        ∃ body, fetch t.url = Except.ok body ∧ md5hex body = d) := by
  refine ⟨check_loaded md5hex fetch now file targets hnd, ?_⟩
  intro n d
  rw [check_loaded md5hex fetch now file targets hnd]
  constructor
  · intro h
    rcases List.mem_filterMap.mp (objGet_mem _ n d h) with ⟨t, hmem, hsome⟩
    cases hF : fetch t.url with
    | ok body =>
        rw [hashOf_ok md5hex fetch t body hF] at hsome
        injection hsome with h2
        exact ⟨t, hmem, (congrArg Prod.fst h2 : t.name = n),
          body, hF, (congrArg Prod.snd h2 : md5hex body = d)⟩
    | error e =>
        rw [hashOf_error md5hex fetch t e hF] at hsome
        cases hsome
  · rintro ⟨t, hmem, rfl, body, hf, rfl⟩
    rw [objGet_hashes md5hex fetch targets t hnd hmem,
      hashOf_ok md5hex fetch t body hf]
    rfl

/-- Witness for C2: the demo run. -/
theorem claim_C2_witness :
    (loadHashes (check_for_changes demoHash demoFetch "T" demoPrior demoTargets).2).1 =
      demoTargets.filterMap (hashOf demoHash demoFetch) ∧
    ∀ n d, (objGet (loadHashes
        (check_for_changes demoHash demoFetch "T" demoPrior demoTargets).2).1 n = some d ↔
      ∃ t, t ∈ demoTargets ∧ t.name = n ∧
        ∃ body, demoFetch t.url = Except.ok body ∧ demoHash body = d) :=
  claim_C2_roundtrip demoHash demoFetch "T" demoPrior demoTargets (by decide)

/-- Claim C3: a successful fetch whose digest differs from the stored
one yields the Changed event, whose detail is the literal built from the
8-character truncations of the old and new digests, and the saved store
binds the name to the new digest. -/
theorem claim_C3_changed (md5hex : String → String)
    (fetch : String → Except String String) (now : String)
    (file : FileState) (targets : List Target)
    (hnd : (targets.map Target.name).Nodup)
    (t : Target) (ht : t ∈ targets) (body old : String)
    (hf : fetch t.url = Except.ok body)
    (hold : objGet (loadHashes file).1 t.name = some old)
    (hne : old ≠ md5hex body) :
    (⟨t.name, t.url, now, "Content Changed",
      "Old: " ++ old.take 8 ++ "... -> New: " ++ (md5hex body).take 8 ++ "..."⟩ :
        ChangeEvent) ∈ (check_for_changes md5hex fetch now file targets).1 ∧
    objGet (loadHashes
      (check_for_changes md5hex fetch now file targets).2).1 t.name =
      some (md5hex body) := by
  constructor
  · rw [check_changes_eq]
    exact List.mem_filterMap.mpr
      ⟨t, ht, eventOf_changed md5hex fetch (loadHashes file).1 now t body old hf hold hne⟩
  · rw [check_loaded md5hex fetch now file targets hnd,
      objGet_hashes md5hex fetch targets t hnd ht,
      hashOf_ok md5hex fetch t body hf]
    rfl

/-- Witness for C3: target C of the demo run, stale digest `oldC`. -/
theorem claim_C3_witness :
    (⟨"C", "http://c", "T", "Content Changed",
      "Old: " ++ ("oldC" : String).take 8 ++ "... -> New: " ++
        (demoHash "world").take 8 ++ "..."⟩ : ChangeEvent) ∈
      (check_for_changes demoHash demoFetch "T" demoPrior demoTargets).1 ∧
    objGet (loadHashes
      (check_for_changes demoHash demoFetch "T" demoPrior demoTargets).2).1 "C" =
      some (demoHash "world") :=
  claim_C3_changed demoHash demoFetch "T" demoPrior demoTargets (by decide)
    ⟨"C", "http://c"⟩ (by decide) "world" "oldC" rfl (by decide) (by decide)

/-- Claim C4: a successful fetch whose digest equals the stored one adds
no event for that target to the report, and the saved store binds the
name to the same digest it held before the run. -/
theorem claim_C4_unchanged (md5hex : String → String)
    (fetch : String → Except String String) (now : String)
    (file : FileState) (targets : List Target)
    (hnd : (targets.map Target.name).Nodup)
    (t : Target) (ht : t ∈ targets) (body : String)
    (hf : fetch t.url = Except.ok body)
    (hold : objGet (loadHashes file).1 t.name = some (md5hex body)) :
    (∀ ev ∈ (check_for_changes md5hex fetch now file targets).1,
      ev.name ≠ t.name) ∧
    objGet (loadHashes
      (check_for_changes md5hex fetch now file targets).2).1 t.name =
      objGet (loadHashes file).1 t.name := by
  constructor
  · rw [check_changes_eq]
    exact no_event_of_name md5hex fetch (loadHashes file).1 now targets hnd t ht
      (eventOf_unchanged md5hex fetch (loadHashes file).1 now t body hf hold)
  · rw [check_loaded md5hex fetch now file targets hnd,
      objGet_hashes md5hex fetch targets t hnd ht,
      hashOf_ok md5hex fetch t body hf, hold]
    rfl

/-- Witness for C4: target A of the demo run, digest already stored. -/
theorem claim_C4_witness :
    (∀ ev ∈ (check_for_changes demoHash demoFetch "T" demoPrior demoTargets).1,
      ev.name ≠ "A") ∧
    objGet (loadHashes
      (check_for_changes demoHash demoFetch "T" demoPrior demoTargets).2).1 "A" =
      objGet (loadHashes demoPrior).1 "A" :=
  claim_C4_unchanged demoHash demoFetch "T" demoPrior demoTargets (by decide)
    ⟨"A", "http://a"⟩ (by decide) "hello" rfl (by decide)

/-- Claim C5: with no digest recorded under the target's name, a
successful fetch yields the Initial event with the truncated new digest,
and exactly once — on a following run with the same fetch outcome the
target produces no event at all (Unchanged), in particular not Initial
again. -/
theorem claim_C5_initial_once (md5hex : String → String)
    (fetch : String → Except String String) (now1 now2 : String)
    (file : FileState) (targets : List Target)
    (hnd : (targets.map Target.name).Nodup)
    (t : Target) (ht : t ∈ targets) (body : String)
    (hf : fetch t.url = Except.ok body)
    (habsent : objGet (loadHashes file).1 t.name = none) :
    (⟨t.name, t.url, now1, "Initial Check (No history recorded)",
      "Initial Hash: " ++ (md5hex body).take 8 ++ "..."⟩ : ChangeEvent) ∈
      (check_for_changes md5hex fetch now1 file targets).1 ∧
    ∀ ev ∈ (check_for_changes md5hex fetch now2
        (check_for_changes md5hex fetch now1 file targets).2 targets).1,
      ev.name ≠ t.name := by
  constructor
  · rw [check_changes_eq]
    exact List.mem_filterMap.mpr
      ⟨t, ht, eventOf_initial md5hex fetch (loadHashes file).1 now1 t body hf habsent⟩
  · rw [check_changes_eq]
    apply no_event_of_name _ _ _ _ targets hnd t ht
    apply eventOf_unchanged md5hex fetch _ now2 t body hf
    rw [check_loaded md5hex fetch now1 file targets hnd,
      objGet_hashes md5hex fetch targets t hnd ht,
      hashOf_ok md5hex fetch t body hf]
    rfl

/-- Witness for C5: target D of the demo run, absent from the prior
state. -/
theorem claim_C5_witness :
    (⟨"D", "http://d", "T", "Initial Check (No history recorded)",
      "Initial Hash: " ++ (demoHash "data").take 8 ++ "..."⟩ : ChangeEvent) ∈
      (check_for_changes demoHash demoFetch "T" demoPrior demoTargets).1 ∧
    ∀ ev ∈ (check_for_changes demoHash demoFetch "U"
        (check_for_changes demoHash demoFetch "T" demoPrior demoTargets).2 demoTargets).1,
      ev.name ≠ "D" :=
  claim_C5_initial_once demoHash demoFetch "T" "U" demoPrior demoTargets (by decide)
    ⟨"D", "http://d"⟩ (by decide) "data" rfl (by decide)

/-- Claim C6: a fetch failure is caught for its target alone.  Splicing
a failing target into the list leaves the runs of the surrounding
targets untouched: the report is the report of the preceding targets,
then the failing target's Error event immediately, then the report of
the following targets, and the saved state is exactly the one of the
run without the failing target (its result never reaches the hash
comparison or the store). -/
theorem claim_C6_error_isolated (md5hex : String → String)
    (fetch : String → Except String String) (now : String) (file : FileState)
    (ts1 ts2 : List Target) (t : Target) (e : String)
    (hf : fetch t.url = Except.error e) :
    (check_for_changes md5hex fetch now file (ts1 ++ t :: ts2)).1 =
      (check_for_changes md5hex fetch now file ts1).1 ++
        ⟨t.name, t.url, now, "Error: " ++ e, "N/A"⟩ ::
          (check_for_changes md5hex fetch now file ts2).1 ∧
    (check_for_changes md5hex fetch now file (ts1 ++ t :: ts2)).2 =
      (check_for_changes md5hex fetch now file (ts1 ++ ts2)).2 := by
  constructor
  · rw [check_changes_eq, check_changes_eq, check_changes_eq,
      List.filterMap_append, List.filterMap_cons,
      eventOf_error md5hex fetch (loadHashes file).1 now t e hf]
  · rw [check_saved, check_saved, List.filterMap_append, List.filterMap_append,
      List.filterMap_cons, hashOf_error md5hex fetch t e hf]

/-- Witness for C6: the demo run with failing target B spliced between
A and [C, D]. -/
theorem claim_C6_witness :
    (check_for_changes demoHash demoFetch "T" demoPrior
        ([⟨"A", "http://a"⟩] ++ ⟨"B", "http://b"⟩ ::
          [⟨"C", "http://c"⟩, ⟨"D", "http://d"⟩])).1 =
      (check_for_changes demoHash demoFetch "T" demoPrior [⟨"A", "http://a"⟩]).1 ++
        ⟨"B", "http://b", "T", "Error: " ++ "connection timed out", "N/A"⟩ ::
          (check_for_changes demoHash demoFetch "T" demoPrior
            [⟨"C", "http://c"⟩, ⟨"D", "http://d"⟩]).1 ∧
    (check_for_changes demoHash demoFetch "T" demoPrior
        ([⟨"A", "http://a"⟩] ++ ⟨"B", "http://b"⟩ ::
          [⟨"C", "http://c"⟩, ⟨"D", "http://d"⟩])).2 =
      (check_for_changes demoHash demoFetch "T" demoPrior
        ([⟨"A", "http://a"⟩] ++ [⟨"C", "http://c"⟩, ⟨"D", "http://d"⟩])).2 :=
  claim_C6_error_isolated demoHash demoFetch "T" demoPrior
    [⟨"A", "http://a"⟩] [⟨"C", "http://c"⟩, ⟨"D", "http://d"⟩]
    ⟨"B", "http://b"⟩ "connection timed out" rfl

/-- Claim C7: idempotence.  Running the check twice with the same fetch
outcomes (unchanged remote bodies) and the second run loading exactly
what the first saved, every event of the second run is an Error event of
a target whose fetch fails; in particular no event of the second run is
Changed or Initial, so every successfully fetched target is classified
Unchanged. -/
theorem claim_C7_idempotent (md5hex : String → String)
    (fetch : String → Except String String) (now1 now2 : String)
    (file : FileState) (targets : List Target)
    (hnd : (targets.map Target.name).Nodup) :
    ∀ ev ∈ (check_for_changes md5hex fetch now2
        (check_for_changes md5hex fetch now1 file targets).2 targets).1,
      (∃ t e, t ∈ targets ∧ fetch t.url = Except.error e ∧
        ev = ⟨t.name, t.url, now2, "Error: " ++ e, "N/A"⟩) ∧
      ev.status ≠ "Content Changed" ∧
      ev.status ≠ "Initial Check (No history recorded)" := by
  intro ev hev
  rw [check_changes_eq] at hev
  rcases List.mem_filterMap.mp hev with ⟨t, hmem, hsome⟩
  cases hF : fetch t.url with
  | ok body =>
      have habs : objGet (loadHashes
          (check_for_changes md5hex fetch now1 file targets).2).1 t.name =
          some (md5hex body) := by
        rw [check_loaded md5hex fetch now1 file targets hnd,
          objGet_hashes md5hex fetch targets t hnd hmem,
          hashOf_ok md5hex fetch t body hF]
        rfl
      rw [eventOf_unchanged md5hex fetch _ now2 t body hF habs] at hsome
      cases hsome
  | error e =>
      rw [eventOf_error md5hex fetch _ now2 t e hF] at hsome
      injection hsome with h2
      refine ⟨⟨t, e, hmem, hF, h2.symm⟩, ?_, ?_⟩
      · rw [← h2]
        exact error_status_ne_changed e
      · rw [← h2]
        exact error_status_ne_initial e

/-- Witness for C7: the demo run executed twice; the only event of the
second run is target B's Error event, which is neither Changed nor
Initial. -/
theorem claim_C7_witness :
    (∃ t e, t ∈ demoTargets ∧ demoFetch t.url = Except.error e ∧
      (⟨"B", "http://b", "U", "Error: " ++ "connection timed out", "N/A"⟩ : ChangeEvent) =
        ⟨t.name, t.url, "U", "Error: " ++ e, "N/A"⟩) ∧
    (⟨"B", "http://b", "U", "Error: " ++ "connection timed out", "N/A"⟩ :
      ChangeEvent).status ≠ "Content Changed" ∧
    (⟨"B", "http://b", "U", "Error: " ++ "connection timed out", "N/A"⟩ :
      ChangeEvent).status ≠ "Initial Check (No history recorded)" :=
  claim_C7_idempotent demoHash demoFetch "T" "U" demoPrior demoTargets (by decide)
    ⟨"B", "http://b", "U", "Error: " ++ "connection timed out", "N/A"⟩ (by decide)

/-- Claim C8: loading the state store never fails the run.  A missing
file loads as the empty mapping with no warning, an unparseable file
loads as the empty mapping with the warning printed, and a parseable
file loads as its stored mapping. -/
theorem claim_C8_load_total :
    loadHashes FileState.missing = ([], false) ∧
    loadHashes FileState.corrupt = ([], true) ∧
    ∀ m : HashObj, loadHashes (FileState.stored m) = (m, false) :=
  ⟨rfl, rfl, fun _ => rfl⟩

/-- Claim C9: shape and order of the report.  The root holds the Status
element (event-count summary when the list is non-empty, the no-changes
line when it is empty), then the generation timestamp, then one
ChangeItem per event with sub-elements in the fixed order Name, URL,
Timestamp, Status, HashDetails; the items are the per-target events in
the configuration's declared order, and a target is filtered out exactly
when it is classified Unchanged. -/
theorem claim_C9_report (md5hex : String → String)
    (fetch : String → Except String String) (now nowG : String)
    (file : FileState) (targets : List Target) :
    (generate_xml_report (check_for_changes md5hex fetch now file targets).1 nowG =
      XML.elem "MonitoringReport" none (
        XML.elem "Status"
          (some (if (check_for_changes md5hex fetch now file targets).1.isEmpty
            then "No changes detected since the last run."
            else toString (check_for_changes md5hex fetch now file targets).1.length ++
              " Change(s) or Initial Check(s) Detected.")) [] ::
        XML.elem "TimestampGenerated" (some nowG) [] ::
        (targets.filterMap (eventOf md5hex fetch (loadHashes file).1 now)).map
          (fun c => XML.elem "ChangeItem" none [
            XML.elem "Name" (some c.name) [],
            XML.elem "URL" (some c.url) [],
            XML.elem "Timestamp" (some c.timestamp) [],
            XML.elem "Status" (some c.status) [],
            XML.elem "HashDetails" (some c.hash_change) []]))) ∧
    ∀ t : Target, (eventOf md5hex fetch (loadHashes file).1 now t = none ↔
      ∃ body, fetch t.url = Except.ok body ∧
        objGet (loadHashes file).1 t.name = some (md5hex body)) := by
  constructor
  · rw [check_changes_eq]
    rfl
  · intro t
    exact eventOf_none_iff md5hex fetch (loadHashes file).1 now t

/-- Claim C10: the fields of an Error event.  The failing target's event
is present, and every event carrying that target's name has hash details
exactly the string N/A and status exactly the error prefix followed by
the exception message — so no digest fragment appears in it. -/
theorem claim_C10_error_fields (md5hex : String → String)
    (fetch : String → Except String String) (now : String)
    (file : FileState) (targets : List Target)
    (hnd : (targets.map Target.name).Nodup)
    (t : Target) (ht : t ∈ targets) (e : String)
    (hf : fetch t.url = Except.error e) :
    (⟨t.name, t.url, now, "Error: " ++ e, "N/A"⟩ : ChangeEvent) ∈
      (check_for_changes md5hex fetch now file targets).1 ∧
    ∀ ev ∈ (check_for_changes md5hex fetch now file targets).1,
      ev.name = t.name →
        ev.hash_change = "N/A" ∧ ev.status = "Error: " ++ e := by
  constructor
  · rw [check_changes_eq]
    exact List.mem_filterMap.mpr
      ⟨t, ht, eventOf_error md5hex fetch (loadHashes file).1 now t e hf⟩
  · intro ev hev hname
    rw [check_changes_eq] at hev
    rcases List.mem_filterMap.mp hev with ⟨t', hmem', hsome⟩
    have heq : t' = t := List.inj_on_of_nodup_map hnd hmem' ht (by
      rw [← eventOf_name md5hex fetch (loadHashes file).1 now t' ev hsome, hname])
    rw [heq] at hsome
    rw [eventOf_error md5hex fetch (loadHashes file).1 now t e hf] at hsome
    injection hsome with h2
    constructor
    · rw [← h2]
    · rw [← h2]

/-- Witness for C10: target B of the demo run. -/
theorem claim_C10_witness :
    (⟨"B", "http://b", "T", "Error: " ++ "connection timed out", "N/A"⟩ : ChangeEvent) ∈
      (check_for_changes demoHash demoFetch "T" demoPrior demoTargets).1 ∧
    ∀ ev ∈ (check_for_changes demoHash demoFetch "T" demoPrior demoTargets).1,
      ev.name = "B" →
        ev.hash_change = "N/A" ∧ ev.status = "Error: " ++ "connection timed out" :=
  claim_C10_error_fields demoHash demoFetch "T" demoPrior demoTargets (by decide)
    ⟨"B", "http://b"⟩ (by decide) "connection timed out" rfl

end WebMonitor
